import Mathlib

/-!
Verification of the whisper-bot core (`src/inline/whisper.py`).

The Python module is shallowly embedded here:

* strings are `List Char` (Python `str.lower` is modelled per-character via
  `Char.toLower`, which agrees with Python on ASCII);
* `time.time()` timestamps are rationals (`ℚ`), passed explicitly;
* Telegram identities are `Int` (Python `int`), and Python truthiness of an
  optional id (`if recipient_id:`) is modelled as "present and nonzero";
* the module-level dict `whispers_cache` is an association list
  `List (Nat × Whisper)` (Python dicts preserve insertion order);
* the external collaborators (`db.get_user_by_username`, `bot.get_chat`) are
  an explicit environment record whose results include an `error` case
  standing for a raised exception.
-/

namespace PixelWhisper

/-! ### Definitions: the embedded module -/

/-- Python `str.lower`, modelled character-wise. -/
def lowerStr (l : List Char) : List Char := l.map Char.toLower

/-- Python `str.lstrip()` on our character lists. -/
def ltrim (l : List Char) : List Char := l.dropWhile Char.isWhitespace

/-- Python `str.rstrip()` on our character lists. -/
def rtrim (l : List Char) : List Char := (l.reverse.dropWhile Char.isWhitespace).reverse

/-- Python `str.strip()` on our character lists. -/
def trimStr (l : List Char) : List Char := rtrim (ltrim l)

/-- Boolean "is a prefix of" test on character lists (`str.startswith`). -/
def startsWithL : List Char → List Char → Bool
  | [], _ => true
  | _ :: _, [] => false
  | p :: ps, c :: cs => p = c && startsWithL ps cs

/-- Index of the last occurrence of the marker character (`str.rfind('@')`),
or `none` when absent. -/
def rfindIdx : List Char → Option Nat
  | [] => none
  | c :: cs =>
    match rfindIdx cs with
    | some i => some (i + 1)
    | none => if c = '@' then some 0 else none

/-- First whitespace-separated word of a string: `s.split()[0]` when the split
is non-empty. -/
def firstWord (l : List Char) : List Char :=
  (l.dropWhile Char.isWhitespace).takeWhile (fun c => !c.isWhitespace)

/-- Membership in the punctuation set of `rstrip('.,!?;:')`. -/
def isPunct (c : Char) : Bool :=
  c = '.' || c = ',' || c = '!' || c = '?' || c = ';' || c = ':'

/-- Python `str.rstrip('.,!?;:')` on our character lists. -/
def rstripPunct (l : List Char) : List Char := (l.reverse.dropWhile isPunct).reverse

/-- Self-mention handling of `_parse_whisper_query` (lines 56-77): strip the
bot's own mention (with or without the marker, exact case or lowercased) from
the front of the query, returning the stripped-and-trimmed remainder, or
`none` when the query is empty or does not start with the bot's name. -/
def stripBotMention (query0 bot : List Char) : Option (List Char) :=
  if query0 = [] then none
  else
    let query := trimStr query0
    let queryLower := lowerStr query
    let botLower := lowerStr bot
    let mentionAt := '@' :: botLower
    if startsWithL mentionAt queryLower then
      if startsWithL ('@' :: bot) query then
        some (trimStr (query.drop ('@' :: bot).length))
      else
        some (trimStr (query.drop mentionAt.length))
    else if startsWithL botLower queryLower then
      if startsWithL bot query then
        some (trimStr (query.drop bot.length))
      else
        some (trimStr (query.drop botLower.length))
    else
      none

/-- Recipient-handle extraction from the part after the last marker
(lines 87-96): strip, take the first whitespace-separated word (falling back
to the whole part when the split is empty), and strip trailing punctuation. -/
def extractRecipient (afterAt : List Char) : List Char :=
  let recipientPart := trimStr afterAt
  if ltrim recipientPart = [] then rstripPunct recipientPart
  else rstripPunct (firstWord recipientPart)

/-- The whisper query parser `_parse_whisper_query` (lines 50-106). -/
def parseWhisperQuery (query0 bot : List Char) : Option (List Char × List Char) :=
  match stripBotMention query0 bot with
  | none => none
  | some remaining =>
    if remaining = [] then none
    else
      match rfindIdx remaining with
      | none => none
      | some lastAt =>
        let recipientPart := trimStr (remaining.drop (lastAt + 1))
        if recipientPart = [] then none
        else
          let recipientUsername := extractRecipient (remaining.drop (lastAt + 1))
          if recipientUsername = [] then none
          else
            let messageText := trimStr (remaining.take lastAt)
            if messageText = [] then none
            else some (messageText, recipientUsername)

/-- A stored whisper record: the dict stored in `whispers_cache`
(lines 157-164 of the source). -/
structure Whisper where
  sender_id : Int
  recipient_id : Option Int
  recipient_username : List Char
  message_text : List Char
  created_at : ℚ
  expires_at : ℚ
deriving DecidableEq

/-- The in-memory store `whispers_cache`: an insertion-ordered association
list keyed by opaque whisper ids. -/
abbrev Store := List (Nat × Whisper)

/-- Dict lookup `whispers_cache.get(whisper_id)`. -/
def lookupWhisper (s : Store) (i : Nat) : Option Whisper :=
  (s.find? (fun e => e.1 == i)).map (fun e => e.2)

/-- Python-dict well-formedness: keys occur at most once. -/
def NodupKeys (s : Store) : Prop := (s.map Prod.fst).Nodup

/-- The expiry sweep `_cleanup_expired_whispers` (lines 27-36): remove every
entry with `expires_at < current_time`. -/
def cleanupExpiredWhispers (now : ℚ) (s : Store) : Store :=
  s.filter (fun e => !decide (e.2.expires_at < now))

/-- The lookup path `get_whisper_by_id` (lines 195-207): sweep, then look up;
evict and return `none` when `expires_at < now`, else return the live record.
Returns the result together with the updated store. -/
def get_whisper_by_id (s : Store) (i : Nat) (now : ℚ) : Option Whisper × Store :=
  let s1 := cleanupExpiredWhispers now s
  match lookupWhisper s1 i with
  | none => (none, s1)
  | some w =>
    if w.expires_at < now then (none, s1.eraseP (fun e => e.1 == i))
    else (some w, s1)

/-- A concrete whisper used in C1's witness and counterexample: created at
time `0`, expiring at `10800` (three hours later). -/
def wC1 : Whisper :=
  { sender_id := 1, recipient_id := some 2, recipient_username := ['b', 'o', 'b'],
    message_text := ['h', 'i'], created_at := 0, expires_at := 10800 }

/-- A row of the user directory, as `db.get_user_by_username` returns it. -/
structure DbUser where
  user_id : Int
  is_bot : Bool
deriving DecidableEq

/-- Result of one directory lookup; `error` stands for a raised exception. -/
inductive DbResult
  | found (u : DbUser)
  | missing
  | error
deriving DecidableEq

/-- What `bot.get_chat` yields on success: the chat id, and the value of the
`is_bot` attribute when the object has one (`hasattr(chat, 'is_bot')`). -/
structure ChatInfo where
  id : Int
  is_bot_attr : Option Bool
deriving DecidableEq

/-- Result of `bot.get_chat`; `error` stands for a raised exception. -/
inductive ChatResult
  | ok (c : ChatInfo)
  | error
deriving DecidableEq

/-- The external collaborators of `create_whisper`: the user directory, the
availability of the module-level `bot`, and the platform chat lookup. -/
structure Env where
  getUserByUsername : List Char → DbResult
  botAvailable : Bool
  getChat : List Char → ChatResult

/-- The variants loop of lines 122-128: try the handle as given, then
lower-cased, stopping at the first truthy row; an exception propagates. -/
def dbLookupVariants (env : Env) (u : List Char) : DbResult :=
  match env.getUserByUsername u with
  | .found d => .found d
  | .error => .error
  | .missing =>
    match env.getUserByUsername (lowerStr u) with
    | .found d => .found d
    | .error => .error
    | .missing => .missing

/-- Outcome of the recipient-resolution block of `create_whisper`
(lines 118-150): refuse creation, or proceed with an optional recipient id. -/
inductive ResolveOutcome
  | fail
  | ok (rid : Option Int)
deriving DecidableEq

/-- The self-check `if recipient_id and recipient_id == sender_id` of
line 146: under Python truthiness, an id of `0` never triggers it. -/
def selfCheck (sender_id : Int) (rid : Option Int) : ResolveOutcome :=
  match rid with
  | some r => if r ≠ 0 ∧ r = sender_id then .fail else .ok (some r)
  | none => .ok none

/-- The resolution block of `create_whisper` (lines 118-150): directory
first, `bot.get_chat` as fallback; a directory exception is swallowed by the
outer `except`, leaving the recipient unresolved. -/
def resolveRecipient (env : Env) (sender_id : Int) (ru : List Char) : ResolveOutcome :=
  match dbLookupVariants env ru with
  | .error => .ok none
  | .found d =>
    if d.is_bot then .fail
    else selfCheck sender_id (some d.user_id)
  | .missing =>
    if env.botAvailable then
      match env.getChat ru with
      | .error => selfCheck sender_id none
      | .ok c =>
        if c.is_bot_attr.getD false then .fail
        else selfCheck sender_id (some c.id)
    else selfCheck sender_id none

/-- The store operation `create_whisper` (lines 109-166): refuse over-long
text, run resolution, and append a fresh record with a three-hour expiry. -/
def create_whisper (env : Env) (sender_id : Int) (recipient_username message_text : List Char)
    (now : ℚ) (freshId : Nat) (s : Store) : Option Nat × Store :=
  if message_text.length > 1000 then (none, s)
  else
    match resolveRecipient env sender_id recipient_username with
    | .fail => (none, s)
    | .ok rid =>
      let w : Whisper :=
        { sender_id := sender_id, recipient_id := rid,
          recipient_username := lowerStr recipient_username,
          message_text := message_text, created_at := now,
          expires_at := now + 10800 }
      (some freshId, s ++ [(freshId, w)])

/-- Spec-side reading: the recipient handle resolves, through the directory
or the platform lookup, to a bot account. -/
def resolvesToBot (env : Env) (ru : List Char) : Prop :=
  (∃ d, dbLookupVariants env ru = .found d ∧ d.is_bot = true)
  ∨ (dbLookupVariants env ru = .missing ∧ env.botAvailable = true
      ∧ ∃ c, env.getChat ru = .ok c ∧ c.is_bot_attr = some true)

/-- Spec-side reading: the recipient handle resolves to the sender's own
identity, with a truthy (nonzero) resolved id. -/
def resolvesToSelfTruthy (env : Env) (sender_id : Int) (ru : List Char) : Prop :=
  (∃ d, dbLookupVariants env ru = .found d ∧ d.is_bot = false
      ∧ d.user_id = sender_id ∧ d.user_id ≠ 0)
  ∨ (dbLookupVariants env ru = .missing ∧ env.botAvailable = true
      ∧ ∃ c, env.getChat ru = .ok c ∧ c.is_bot_attr.getD false = false
          ∧ c.id = sender_id ∧ c.id ≠ 0)

/-- Spec-side reading: the recipient lookup failed or errored without
resolving anyone. -/
def recipientLookupFailed (env : Env) (ru : List Char) : Prop :=
  dbLookupVariants env ru = .error
  ∨ (dbLookupVariants env ru = .missing
      ∧ (env.botAvailable = false ∨ env.getChat ru = .error))

/-- Environment for C2's counterexample: the directory resolves every handle
to the (bot-free) identity `0`. -/
def envSelfZero : Env :=
  { getUserByUsername := fun _ => .found { user_id := 0, is_bot := false },
    botAvailable := false, getChat := fun _ => .error }

/-- Environment for C2's witness: every directory lookup raises. -/
def envDbError : Env :=
  { getUserByUsername := fun _ => .error,
    botAvailable := true, getChat := fun _ => .error }

/-- Python `int()` applied to a float: truncation toward zero. -/
def pyIntTrunc (x : ℚ) : Int := if 0 ≤ x then ⌊x⌋ else ⌈x⌉

/-- The cooldown sweep `_cleanup_old_cooldowns` (lines 39-47): drop entries
older than twice the five-second window. -/
def cleanupOldCooldowns (now : ℚ) (cd : Int → Option ℚ) : Int → Option ℚ :=
  fun u =>
    match cd u with
    | some t => if now - t > 10 then none else some t
    | none => none

/-- The rate limiter `check_view_cooldown` (lines 210-229): deny with the
truncated remaining seconds inside the five-second window, else stamp `now`
and sweep. Returns the `(can_view, remaining_seconds)` pair and the updated
cooldown table. -/
def check_view_cooldown (cd : Int → Option ℚ) (user_id : Int) (now : ℚ) :
    (Bool × Int) × (Int → Option ℚ) :=
  match cd user_id with
  | some last =>
    if now - last < 5 then ((false, pyIntTrunc (5 - (now - last))), cd)
    else
      ((true, 0), cleanupOldCooldowns now (fun u => if u = user_id then some now else cd u))
  | none =>
    ((true, 0), cleanupOldCooldowns now (fun u => if u = user_id then some now else cd u))

/-- Cooldown table for C3's witness and counterexample: user `1` was last
admitted at time `0`. -/
def cdC3 : Int → Option ℚ := fun u => if u = 1 then some 0 else none

/-- The recipient side of the access-control block of
`whisper_callback_handler` (lines 529-546): recipient by id; else, when the
recipient is unresolved and a handle is stored, recipient by matching
lower-cased handle, backfilling `recipient_id` with the requester's id.
Returns the flag and the possibly backfilled whisper. -/
def recipientCheck (w : Whisper) (user_id : Int) (userHandle : Option (List Char)) :
    Bool × Whisper :=
  if w.recipient_id = some user_id then (true, w)
  else if w.recipient_id = none ∧ w.recipient_username ≠ [] then
    match userHandle with
    | some h =>
      if lowerStr h ≠ [] ∧ w.recipient_username = lowerStr h then
        (true, { w with recipient_id := some user_id })
      else (false, w)
    | none => (false, w)
  else (false, w)

/-- The full access decision of `whisper_callback_handler` (lines 526-555):
the recipient check, plus `is_sender = (sender_id == user_id)`; the request
is denied when both flags are false. -/
def authorizeReveal (w : Whisper) (user_id : Int) (userHandle : Option (List Char)) :
    (Bool × Bool) × Whisper :=
  (((recipientCheck w user_id userHandle).1, decide (w.sender_id = user_id)),
    (recipientCheck w user_id userHandle).2)

/-- Concrete whisper for C4's witness: unresolved recipient handle `bob`. -/
def wC4 : Whisper :=
  { sender_id := 1, recipient_id := none, recipient_username := ['b', 'o', 'b'],
    message_text := ['h', 'i'], created_at := 0, expires_at := 10800 }

/-- How a revealed whisper is surfaced to the requester. -/
inductive RevealAction
  | alert (text : List Char)
  | sendToChat (chat_id : Int) (text : List Char)
  | sendToUser (user_id : Int) (text : List Char)
deriving DecidableEq

/-- The presentation tail of `whisper_callback_handler` (lines 591-624):
text up to 170 characters is answered inline as an ephemeral alert carrying
the prefixed text; longer text is sent as a full message to the originating
chat when one is available (`if chat_id:` is Python truthiness, so a chat id
of `0` counts as unavailable), else to the requester's direct channel, with
only a short acknowledgment answered inline. The display prefixes are
computed before this block and passed in. -/
def presentReveal (message_text prefA prefFull : List Char) (chatId : Option Int)
    (user_id : Int) : RevealAction :=
  if message_text.length ≤ 170 then .alert (prefA ++ message_text)
  else
    match chatId with
    | some c =>
      if c ≠ 0 then .sendToChat c (prefFull ++ message_text)
      else .sendToUser user_id (prefFull ++ message_text)
    | none => .sendToUser user_id (prefFull ++ message_text)

/-- The handle normalization of line 176:
`username_lower = username.lower() if username else None` — an absent or
empty (falsy) handle yields `None`. -/
def usernameLowerOf : Option (List Char) → Option (List Char)
  | some u => if u = [] then none else some (lowerStr u)
  | none => none

/-- The membership test of the listing loop (lines 178-188), as a Boolean on
store entries: skip expired entries, keep matches by recipient id, else keep
unresolved entries whose stored handle equals the (truthy) lower-cased
supplied handle. -/
def keepForUser (user_id : Int) (ul : Option (List Char)) (now : ℚ)
    (e : Nat × Whisper) : Bool :=
  if e.2.expires_at ≤ now then false
  else if e.2.recipient_id = some user_id then true
  else
    match ul with
    | some u => decide (e.2.recipient_id = none ∧ u ≠ [] ∧ e.2.recipient_username = u)
    | none => false

/-- The inbox listing `get_whispers_for_user` (lines 169-192): sweep, filter,
and stable-sort by creation time descending. Returns the listing and the
swept store. -/
def get_whispers_for_user (s : Store) (user_id : Int) (username : Option (List Char))
    (now : ℚ) : List (Nat × Whisper) × Store :=
  let s1 := cleanupExpiredWhispers now s
  let selected := s1.filter (keepForUser user_id (usernameLowerOf username) now)
  (selected.mergeSort (fun a b => decide (b.2.created_at ≤ a.2.created_at)), s1)

/-- The `recipient_id` backfill of line 546 as a store operation: the entry
keyed `i` gets `recipient_id := some uid`; every other field, and every
other entry, is unchanged. -/
def backfillRecipient (s : Store) (i : Nat) (uid : Int) : Store :=
  s.map (fun e => if e.1 = i then (e.1, { e.2 with recipient_id := some uid }) else e)

/-- The store-mutating operations of the module. -/
inductive StoreOp
  | createOp (env : Env) (sender : Int) (ru text : List Char) (now : ℚ) (fresh : Nat)
  | getOp (i : Nat) (now : ℚ)
  | listOp (uid : Int) (username : Option (List Char)) (now : ℚ)
  | sweepOp (now : ℚ)
  | backfillOp (i : Nat) (uid : Int)

/-- Effect of each operation on the store. -/
def applyOp (s : Store) : StoreOp → Store
  | .createOp env sender ru text now fresh => (create_whisper env sender ru text now fresh s).2
  | .getOp i now => (get_whisper_by_id s i now).2
  | .listOp uid username now => (get_whispers_for_user s uid username now).2
  | .sweepOp now => cleanupExpiredWhispers now s
  | .backfillOp i uid => backfillRecipient s i uid

/-- The C9 invariant: every stored whisper expires exactly three hours after
its creation and carries at most 1000 characters of text. -/
def StoreInv (s : Store) : Prop :=
  ∀ e ∈ s, e.2.expires_at = e.2.created_at + 10800 ∧ e.2.message_text.length ≤ 1000

/-- Environment for C10's witness: the directory misses every handle and the
platform client is absent. -/
def envMissing : Env :=
  { getUserByUsername := fun _ => .missing,
    botAvailable := false, getChat := fun _ => .error }

/-- The whisper C10's witness stores: sender `4` whispering to their own
unresolved handle `me`. -/
def wC10 : Whisper :=
  { sender_id := 4, recipient_id := none, recipient_username := lowerStr ['m', 'e'],
    message_text := ['h', 'i'], created_at := 0, expires_at := 0 + 10800 }

/-! ### Theorems -/

/-- Kernel-level computation of `Char.toNat` after `Char.ofNat` on a valid
codepoint. -/
theorem char_toNat_ofNat {n : Nat} (h : n.isValidChar) : (Char.ofNat n).toNat = n := by
  simp [Char.ofNat, h, Char.ofNatAux, Char.toNat, UInt32.toNat, BitVec.toNat_ofNatLt]

/-- Lowercasing a character twice is the same as lowercasing it once. -/
theorem toLower_idem (c : Char) : Char.toLower (Char.toLower c) = Char.toLower c := by
  simp only [Char.toLower]
  by_cases h : c.toNat ≥ 65 ∧ c.toNat ≤ 90
  · rw [if_pos h]
    have hv : (c.toNat + 32).isValidChar := Or.inl (by omega)
    rw [char_toNat_ofNat hv, if_neg (by omega)]
  · rw [if_neg h, if_neg h]

/-- Lowercasing never produces the marker character from a non-marker. -/
theorem toLower_ne_at {c : Char} (h : c ≠ '@') : Char.toLower c ≠ '@' := by
  simp only [Char.toLower]
  by_cases hc : c.toNat ≥ 65 ∧ c.toNat ≤ 90
  · rw [if_pos hc]
    intro he
    have hv : (c.toNat + 32).isValidChar := Or.inl (by omega)
    have h2 : (Char.ofNat (c.toNat + 32)).toNat = c.toNat + 32 := char_toNat_ofNat hv
    rw [he] at h2
    have h3 : ('@').toNat = 64 := by decide
    omega
  · rw [if_neg hc]; exact h

/-- Lowercasing preserves non-whitespace. -/
theorem toLower_not_ws {c : Char} (h : ¬ c.isWhitespace) : ¬ (Char.toLower c).isWhitespace := by
  simp only [Char.toLower]
  by_cases hc : c.toNat ≥ 65 ∧ c.toNat ≤ 90
  · rw [if_pos hc]
    intro he
    have hv : (c.toNat + 32).isValidChar := Or.inl (by omega)
    have h2 : (Char.ofNat (c.toNat + 32)).toNat = c.toNat + 32 := char_toNat_ofNat hv
    have h3 : ∀ d : Char, d.isWhitespace → d.toNat < 64 := by
      intro d hd
      simp [Char.isWhitespace] at hd
      casesm* _ ∨ _ <;> subst_vars <;> decide
    have h4 := h3 _ he
    omega
  · rw [if_neg hc]; exact h

theorem length_dropWhile_le (p : Char → Bool) (l : List Char) :
    (l.dropWhile p).length ≤ l.length := by
  induction l with
  | nil => simp
  | cons c cs ih =>
    rw [List.dropWhile_cons]
    split
    · exact Nat.le_trans ih (Nat.le_succ _)
    · simp

theorem startsWithL_self_append (p r : List Char) : startsWithL p (p ++ r) = true := by
  induction p with
  | nil => rfl
  | cons c cs ih => simp [startsWithL, ih]

theorem startsWithL_cons_ne {a b : Char} (ps cs : List Char) (hne : a ≠ b) :
    startsWithL (a :: ps) (b :: cs) = false := by
  simp [startsWithL, hne]

theorem rfindIdx_eq_none {l : List Char} (h : '@' ∉ l) : rfindIdx l = none := by
  induction l with
  | nil => rfl
  | cons c cs ih =>
    have hc : c ≠ '@' := fun he => h (he ▸ List.mem_cons_self c cs)
    have hcs : '@' ∉ cs := fun hm => h (List.mem_cons_of_mem c hm)
    simp [rfindIdx, ih hcs, hc]

theorem rfindIdx_append {r : List Char} {i : Nat} (l : List Char) (h : rfindIdx r = some i) :
    rfindIdx (l ++ r) = some (l.length + i) := by
  induction l with
  | nil => simpa using h
  | cons c cs ih =>
    show (match rfindIdx (cs ++ r) with
      | some j => some (j + 1)
      | none => if c = '@' then some 0 else none) = some ((c :: cs).length + i)
    rw [ih]
    show some (cs.length + i + 1) = some ((c :: cs).length + i)
    rw [List.length_cons]
    exact congrArg some (by omega)

theorem ltrim_cons_not_ws {c : Char} (h : ¬ c.isWhitespace) (l : List Char) :
    ltrim (c :: l) = c :: l := by
  simp [ltrim, List.dropWhile_cons, h]

theorem head_not_ws_of_ltrim {c : Char} {l : List Char} (h : ltrim (c :: l) = c :: l) :
    ¬ c.isWhitespace := by
  intro hw
  have h1 : ltrim (c :: l) = ltrim l := by simp [ltrim, List.dropWhile_cons, hw]
  have h2 : (ltrim l).length ≤ l.length := length_dropWhile_le _ _
  rw [h] at h1
  have h3 := congrArg List.length h1
  simp at h3
  omega

theorem ltrim_append {l : List Char} (hne : l ≠ []) (h : ltrim l = l) (r : List Char) :
    ltrim (l ++ r) = l ++ r := by
  cases l with
  | nil => exact absurd rfl hne
  | cons c cs =>
    have hc := head_not_ws_of_ltrim h
    simp [ltrim, List.dropWhile_cons, hc]

theorem ltrim_of_rtrim {r : List Char} (h : rtrim r = r) : ltrim r.reverse = r.reverse := by
  have h1 := congrArg List.reverse h
  rw [rtrim, List.reverse_reverse] at h1
  exact h1

theorem rtrim_append {r : List Char} (hne : r ≠ []) (h : rtrim r = r) (l : List Char) :
    rtrim (l ++ r) = l ++ r := by
  have hr : ltrim r.reverse = r.reverse := ltrim_of_rtrim h
  have hrne : r.reverse ≠ [] := by simpa using hne
  unfold rtrim
  rw [List.reverse_append]
  have h5 : List.dropWhile Char.isWhitespace (r.reverse ++ l.reverse) = r.reverse ++ l.reverse :=
    ltrim_append hrne hr l.reverse
  rw [h5, List.reverse_append, List.reverse_reverse, List.reverse_reverse]

theorem dropWhile_eq_self_of_all {p : Char → Bool} {l : List Char} (h : ∀ c ∈ l, ¬ p c) :
    l.dropWhile p = l := by
  cases l with
  | nil => rfl
  | cons c cs => simp [List.dropWhile_cons, h c (List.mem_cons_self c cs)]

theorem takeWhile_eq_self_of_all {p : Char → Bool} {l : List Char} (h : ∀ c ∈ l, p c) :
    l.takeWhile p = l := by
  induction l with
  | nil => rfl
  | cons c cs ih =>
    simp [List.takeWhile_cons, h c (List.mem_cons_self c cs),
      ih (fun d hd => h d (List.mem_cons_of_mem c hd))]

theorem ltrim_of_all_not_ws {l : List Char} (h : ∀ c ∈ l, ¬ c.isWhitespace) :
    ltrim l = l :=
  dropWhile_eq_self_of_all h

theorem rtrim_of_all_not_ws {l : List Char} (h : ∀ c ∈ l, ¬ c.isWhitespace) :
    rtrim l = l := by
  unfold rtrim
  rw [dropWhile_eq_self_of_all (fun c hc => h c (List.mem_reverse.mp hc)), List.reverse_reverse]

theorem trimStr_eq_self {l : List Char} (h1 : ltrim l = l) (h2 : rtrim l = l) :
    trimStr l = l := by
  unfold trimStr
  rw [h1, h2]

theorem trimStr_cons_space {R : List Char} (hRl : ltrim R = R) (hRr : rtrim R = R) :
    trimStr (' ' :: R) = R := by
  unfold trimStr
  have h1 : ltrim (' ' :: R) = ltrim R := by simp [ltrim, List.dropWhile_cons]
  rw [h1, hRl, hRr]

theorem trimStr_append_space {T : List Char} (hne : T ≠ []) (h1 : ltrim T = T)
    (h2 : rtrim T = T) : trimStr (T ++ [' ']) = T := by
  unfold trimStr
  rw [ltrim_append hne h1]
  unfold rtrim
  rw [List.reverse_append]
  have h3 : ([' '] : List Char).reverse = [' '] := rfl
  rw [h3, List.singleton_append]
  have h4 : List.dropWhile Char.isWhitespace (' ' :: T.reverse)
      = List.dropWhile Char.isWhitespace T.reverse := by
    simp [List.dropWhile_cons]
  rw [h4]
  exact h2

theorem firstWord_of_all_not_ws {l : List Char} (h : ∀ c ∈ l, ¬ c.isWhitespace) :
    firstWord l = l := by
  unfold firstWord
  rw [dropWhile_eq_self_of_all h, takeWhile_eq_self_of_all (by simpa using h)]

theorem lowerStr_append (a b : List Char) : lowerStr (a ++ b) = lowerStr a ++ lowerStr b :=
  List.map_append _ a b

theorem lowerStr_cons (c : Char) (l : List Char) :
    lowerStr (c :: l) = Char.toLower c :: lowerStr l := rfl

theorem lowerStr_length (l : List Char) : (lowerStr l).length = l.length :=
  List.length_map l _

theorem lowerStr_idem (l : List Char) : lowerStr (lowerStr l) = lowerStr l := by
  induction l with
  | nil => rfl
  | cons c cs ih => rw [lowerStr_cons, lowerStr_cons, toLower_idem, ih]

theorem stripBotMention_mention_case (B R P : List Char)
    (hlow : lowerStr P = '@' :: lowerStr B) (hlen : P.length = B.length + 1)
    (htrim : trimStr (P ++ ' ' :: R) = P ++ ' ' :: R)
    (hRl : ltrim R = R) (hRr : rtrim R = R) :
    stripBotMention (P ++ ' ' :: R) B = some R := by
  unfold stripBotMention
  rw [if_neg (by simp)]
  simp only [htrim]
  have hql : lowerStr (P ++ ' ' :: R) = ('@' :: lowerStr B) ++ lowerStr (' ' :: R) := by
    rw [lowerStr_append, hlow]
  have hcond : startsWithL ('@' :: lowerStr B) (lowerStr (P ++ ' ' :: R)) = true := by
    rw [hql]; exact startsWithL_self_append _ _
  rw [if_pos hcond]
  have hlen2 : ('@' :: lowerStr B).length = ('@' :: B).length := by
    simp [lowerStr_length]
  rw [hlen2, ite_self]
  have hd : ('@' :: B).length = P.length := by simp [hlen]
  rw [hd, List.drop_left]
  exact congrArg some (trimStr_cons_space hRl hRr)

theorem stripBotMention_bare_case (B R P : List Char)
    (hB : B ≠ []) (hBat : '@' ∉ B)
    (hlow : lowerStr P = lowerStr B) (hlen : P.length = B.length)
    (htrim : trimStr (P ++ ' ' :: R) = P ++ ' ' :: R)
    (hRl : ltrim R = R) (hRr : rtrim R = R) :
    stripBotMention (P ++ ' ' :: R) B = some R := by
  unfold stripBotMention
  rw [if_neg (by simp)]
  simp only [htrim]
  have hql : lowerStr (P ++ ' ' :: R) = lowerStr B ++ lowerStr (' ' :: R) := by
    rw [lowerStr_append, hlow]
  have hcond1 : startsWithL ('@' :: lowerStr B) (lowerStr (P ++ ' ' :: R)) = false := by
    rw [hql]
    cases B with
    | nil => exact absurd rfl hB
    | cons b bs =>
      have hb : b ≠ '@' := fun he => hBat (he ▸ List.mem_cons_self b bs)
      rw [lowerStr_cons, List.cons_append]
      exact startsWithL_cons_ne _ _ (Ne.symm (toLower_ne_at hb))
  rw [hcond1]
  rw [if_neg Bool.false_ne_true]
  have hcond2 : startsWithL (lowerStr B) (lowerStr (P ++ ' ' :: R)) = true := by
    rw [hql]; exact startsWithL_self_append _ _
  rw [if_pos hcond2]
  have hlen2 : (lowerStr B).length = B.length := lowerStr_length B
  rw [hlen2, ite_self, ← hlen, List.drop_left]
  exact congrArg some (trimStr_cons_space hRl hRr)

/-- Parser round-trip core: with the bot mention already stripped off, the
remainder `T ++ " @" ++ H` parses back to `(T, H)`. -/
theorem parse_body_roundtrip (B q0 T H : List Char)
    (hstrip : stripBotMention q0 B = some (T ++ ' ' :: '@' :: H))
    (hT : T ≠ []) (hTl : ltrim T = T) (hTr : rtrim T = T)
    (hH : H ≠ []) (hHat : '@' ∉ H) (hHws : ∀ c ∈ H, ¬ c.isWhitespace)
    (hHp : rstripPunct H = H) :
    parseWhisperQuery q0 B = some (T, H) := by
  have hHl : ltrim H = H := ltrim_of_all_not_ws hHws
  have hHr : rtrim H = H := rtrim_of_all_not_ws hHws
  have hRne : T ++ ' ' :: '@' :: H ≠ [] := by simp
  have hsplit : T ++ ' ' :: '@' :: H = (T ++ [' ', '@']) ++ H := by simp
  have hfind : rfindIdx (T ++ ' ' :: '@' :: H) = some (T.length + 1) := by
    have h1 : rfindIdx ('@' :: H) = some 0 := by
      simp [rfindIdx, rfindIdx_eq_none hHat]
    have h2 : rfindIdx (' ' :: '@' :: H) = some 1 := by
      show (match rfindIdx ('@' :: H) with
        | some j => some (j + 1)
        | none => if ' ' = '@' then some 0 else none) = some 1
      rw [h1]
    exact rfindIdx_append T h2
  have hdrop : (T ++ ' ' :: '@' :: H).drop (T.length + 1 + 1) = H := by
    rw [hsplit]
    have h1 : (T ++ [' ', '@']).length = T.length + 1 + 1 := by simp
    rw [← h1, List.drop_left]
  have hrp : trimStr ((T ++ ' ' :: '@' :: H).drop (T.length + 1 + 1)) = H := by
    rw [hdrop]; exact trimStr_eq_self hHl hHr
  have hex : extractRecipient ((T ++ ' ' :: '@' :: H).drop (T.length + 1 + 1)) = H := by
    rw [hdrop]
    unfold extractRecipient
    rw [trimStr_eq_self hHl hHr]
    simp only [hHl, if_neg hH]
    rw [firstWord_of_all_not_ws hHws, hHp]
  have htake : (T ++ ' ' :: '@' :: H).take (T.length + 1) = T ++ [' '] := by
    rw [List.take_append_eq_append_take, List.take_of_length_le (by omega)]
    have h1 : T.length + 1 - T.length = 1 := by omega
    rw [h1]
    rfl
  have hmsg : trimStr ((T ++ ' ' :: '@' :: H).take (T.length + 1)) = T := by
    rw [htake]; exact trimStr_append_space hT hTl hTr
  unfold parseWhisperQuery
  rw [hstrip]
  simp only [if_neg hRne, hfind, hrp, if_neg hH, hex, hmsg, if_neg hT]

/-- With the query `P ++ " " ++ T ++ " @" ++ H` for any of the four
self-mention forms `P`, the mention strips to `T ++ " @" ++ H`. -/
theorem stripBotMention_forms (B T H P : List Char)
    (hB : B ≠ []) (hBat : '@' ∉ B) (hBws : ∀ c ∈ B, ¬ c.isWhitespace)
    (hT : T ≠ []) (hTl : ltrim T = T)
    (hH : H ≠ []) (hHws : ∀ c ∈ H, ¬ c.isWhitespace)
    (hP : P = '@' :: B ∨ P = '@' :: lowerStr B ∨ P = B ∨ P = lowerStr B) :
    stripBotMention (P ++ ' ' :: (T ++ ' ' :: '@' :: H)) B
      = some (T ++ ' ' :: '@' :: H) := by
  have hHr : rtrim H = H := rtrim_of_all_not_ws hHws
  have hRl : ltrim (T ++ ' ' :: '@' :: H) = T ++ ' ' :: '@' :: H :=
    ltrim_append hT hTl _
  have hRr : rtrim (T ++ ' ' :: '@' :: H) = T ++ ' ' :: '@' :: H := by
    have hsplit : T ++ ' ' :: '@' :: H = (T ++ [' ', '@']) ++ H := by simp
    rw [hsplit]
    exact rtrim_append hH hHr _
  have hRne : T ++ ' ' :: '@' :: H ≠ [] := by simp
  have hPl : ltrim P = P := by
    rcases hP with h | h | h | h <;> rw [h]
    · exact ltrim_cons_not_ws (by decide) _
    · exact ltrim_cons_not_ws (by decide) _
    · cases B with
      | nil => exact absurd rfl hB
      | cons b bs => exact ltrim_cons_not_ws (hBws b (List.mem_cons_self b bs)) _
    · cases B with
      | nil => exact absurd rfl hB
      | cons b bs =>
        rw [lowerStr_cons]
        exact ltrim_cons_not_ws (toLower_not_ws (hBws b (List.mem_cons_self b bs))) _
  have hPne : P ≠ [] := by
    rcases hP with h | h | h | h <;> rw [h]
    · simp
    · simp
    · exact hB
    · cases B with
      | nil => exact absurd rfl hB
      | cons b bs => rw [lowerStr_cons]; simp
  have htrim : trimStr (P ++ ' ' :: (T ++ ' ' :: '@' :: H))
      = P ++ ' ' :: (T ++ ' ' :: '@' :: H) := by
    apply trimStr_eq_self
    · exact ltrim_append hPne hPl _
    · have hsplit2 : P ++ ' ' :: (T ++ ' ' :: '@' :: H)
          = (P ++ [' ']) ++ (T ++ ' ' :: '@' :: H) := by simp
      rw [hsplit2]
      exact rtrim_append hRne hRr _
  rcases hP with h | h | h | h <;> rw [h] at htrim ⊢
  · apply stripBotMention_mention_case _ _ _ _ _ htrim hRl hRr
    · rw [lowerStr_cons]
      have h1 : Char.toLower '@' = '@' := by decide
      rw [h1]
    · simp
  · apply stripBotMention_mention_case _ _ _ _ _ htrim hRl hRr
    · rw [lowerStr_cons]
      have h1 : Char.toLower '@' = '@' := by decide
      rw [h1, lowerStr_idem]
    · simp [lowerStr_length]
  · exact stripBotMention_bare_case _ _ _ hB hBat rfl rfl htrim hRl hRr
  · exact stripBotMention_bare_case _ _ _ hB hBat (lowerStr_idem B) (lowerStr_length B)
      htrim hRl hRr

/-- C5 (amended): for every non-empty text `T` containing no marker character
and with no leading or trailing whitespace, every non-empty single-word handle
`H` containing no marker character and no trailing punctuation from the set
`.,!?;:`, and every self-addressing form `P` of the bot handle `B` (exact case
or lower-cased, with or without the leading marker), parsing
`P ++ " " ++ T ++ " @" ++ H` against `B` returns exactly `(T, H)`. -/
theorem parse_roundtrip_trimmed (B T H P : List Char)
    (hB : B ≠ []) (hBat : '@' ∉ B) (hBws : ∀ c ∈ B, ¬ c.isWhitespace)
    (hT : T ≠ []) (hTat : '@' ∉ T) (hTl : ltrim T = T) (hTr : rtrim T = T)
    (hH : H ≠ []) (hHat : '@' ∉ H) (hHws : ∀ c ∈ H, ¬ c.isWhitespace)
    (hHp : rstripPunct H = H)
    (hP : P = '@' :: B ∨ P = '@' :: lowerStr B ∨ P = B ∨ P = lowerStr B) :
    parseWhisperQuery (P ++ ' ' :: (T ++ ' ' :: '@' :: H)) B = some (T, H) :=
  parse_body_roundtrip B _ T H
    (stripBotMention_forms B T H P hB hBat hBws hT hTl hH hHws hP)
    hT hTl hTr hH hHat hHws hHp

/-- Witness for C5: a concrete round-trip through `parse_roundtrip_trimmed`. -/
theorem parse_roundtrip_trimmed_witness :
    parseWhisperQuery
        (['@', 'b', 'o', 't'] ++ ' ' :: (['h', 'i'] ++ ' ' :: '@' :: ['B', 'o', 'b']))
        ['b', 'o', 't']
      = some (['h', 'i'], ['B', 'o', 'b']) :=
  parse_roundtrip_trimmed ['b', 'o', 't'] ['h', 'i'] ['B', 'o', 'b'] ['@', 'b', 'o', 't']
    (by decide) (by decide) (by decide) (by decide) (by decide) (by decide) (by decide)
    (by decide) (by decide) (by decide) (by decide) (Or.inl rfl)

/-- Counterexample for C5 as frozen: the claim omits that `T` must carry no
surrounding whitespace (the parser trims it away) and that the handle `H` must
not itself contain the marker (the parser splits at the last marker). With
`T = " hi"` the parser returns `("hi", "bob")`, not `(" hi", "bob")`; with
`H = "a@b"` it returns `("hi @a", "b")`, not `("hi", "a@b")`. -/
theorem parse_roundtrip_claim_counterexample :
    (parseWhisperQuery
        (['@', 'b', 'o', 't'] ++ ' ' :: ([' ', 'h', 'i'] ++ ' ' :: '@' :: ['b', 'o', 'b']))
        ['b', 'o', 't']
      = some (['h', 'i'], ['b', 'o', 'b'])
      ∧ some ((['h', 'i'] : List Char), (['b', 'o', 'b'] : List Char))
        ≠ some ([' ', 'h', 'i'], ['b', 'o', 'b']))
    ∧ (parseWhisperQuery
        (['@', 'b', 'o', 't'] ++ ' ' :: (['h', 'i'] ++ ' ' :: '@' :: ['a', '@', 'b']))
        ['b', 'o', 't']
      = some (['h', 'i', ' ', '@', 'a'], ['b'])
      ∧ some ((['h', 'i', ' ', '@', 'a'] : List Char), (['b'] : List Char))
        ≠ some (['h', 'i'], ['a', '@', 'b'])) := by
  refine ⟨⟨by decide, by decide⟩, ⟨by decide, by decide⟩⟩

/-- C6: after the self-mention handling produced a remainder `r`, the parser
returns `none` whenever `r` has no marker character, or nothing non-empty
follows the last marker after trimming and punctuation-stripping, or the text
before the last marker is empty after trimming. -/
theorem parse_none_conditions (q B r : List Char)
    (h : stripBotMention q B = some r)
    (hc : rfindIdx r = none
      ∨ (∃ i, rfindIdx r = some i ∧ extractRecipient (r.drop (i + 1)) = [])
      ∨ (∃ i, rfindIdx r = some i ∧ trimStr (r.take i) = [])) :
    parseWhisperQuery q B = none := by
  unfold parseWhisperQuery
  simp only [h]
  by_cases hre : r = []
  · rw [if_pos hre]
  · rw [if_neg hre]
    rcases hc with hc | ⟨i, hi, hc⟩ | ⟨i, hi, hc⟩
    · simp only [hc]
    · simp only [hi]
      by_cases hrp : trimStr (r.drop (i + 1)) = []
      · simp only [if_pos hrp]
      · simp only [if_neg hrp, hc, if_pos rfl, if_true]
    · simp only [hi]
      by_cases hrp : trimStr (r.drop (i + 1)) = []
      · simp only [if_pos hrp]
      · by_cases hru : extractRecipient (r.drop (i + 1)) = []
        · simp only [if_neg hrp, if_pos hru]
        · simp only [if_neg hrp, if_neg hru, if_pos hc]

/-- Witness for C6: a query whose marker is followed by nothing yields `none`. -/
theorem parse_none_conditions_witness :
    parseWhisperQuery ['@', 'b', 'o', 't', ' ', 'h', 'i', ' ', '@'] ['b', 'o', 't'] = none :=
  parse_none_conditions _ _ ['h', 'i', ' ', '@'] (by decide)
    (Or.inr (Or.inl ⟨3, by decide, by decide⟩))

theorem find?_eq_none_of_keys {s : Store} {i : Nat}
    (h : ∀ e ∈ s, e.1 ≠ i) : s.find? (fun e => e.1 == i) = none := by
  rw [List.find?_eq_none]
  intro e he
  simpa using h e he

/-- Looking a key up in a filtered store, when keys are unique, returns the
original record exactly when it passes the filter. -/
theorem lookupWhisper_filter {s : Store} {i : Nat} {w : Whisper}
    (hn : NodupKeys s) (hl : lookupWhisper s i = some w) (p : Nat × Whisper → Bool) :
    lookupWhisper (s.filter p) i = if p (i, w) then some w else none := by
  induction s with
  | nil => simp [lookupWhisper] at hl
  | cons e rest ih =>
    have hn2 : NodupKeys rest := by
      have := hn
      unfold NodupKeys at this ⊢
      simpa using (List.nodup_cons.mp (by simpa using this)).2
    by_cases he : e.1 = i
    · have hew : e.2 = w := by
        unfold lookupWhisper at hl
        rw [List.find?_cons_of_pos _ (by simpa using he)] at hl
        simpa using hl
      have hei : e = (i, w) := by
        cases e
        simp at he hew
        simp [he, hew]
      have hrest : ∀ e' ∈ rest, e'.1 ≠ i := by
        intro e' he'
        have hkeys := hn
        unfold NodupKeys at hkeys
        rw [List.map_cons, List.nodup_cons] at hkeys
        intro heq
        exact hkeys.1 (he ▸ heq ▸ (List.mem_map_of_mem Prod.fst he'))
      rw [List.filter_cons]
      by_cases hp : p e
      · rw [if_pos (by simpa using hp)]
        unfold lookupWhisper
        rw [List.find?_cons_of_pos _ (by simpa using he)]
        rw [hei] at hp
        rw [if_pos hp, ← hew]
        rfl
      · rw [if_neg (by simpa using hp)]
        rw [hei] at hp
        rw [if_neg hp]
        unfold lookupWhisper
        rw [find?_eq_none_of_keys (fun e' he' => hrest e' (List.mem_of_mem_filter he'))]
        rfl
    · have hl2 : lookupWhisper rest i = some w := by
        unfold lookupWhisper at hl ⊢
        rwa [List.find?_cons_of_neg _ (by simpa using he)] at hl
      rw [List.filter_cons]
      by_cases hp : p e
      · rw [if_pos (by simpa using hp)]
        unfold lookupWhisper
        rw [List.find?_cons_of_neg _ (by simpa using he)]
        exact ih hn2 hl2
      · rw [if_neg (by simpa using hp)]
        exact ih hn2 hl2

/-- C1 (amended): a whisper created at `t0` (so `expiresAt = t0 + 3h`) is
returned by `get_whisper_by_id` for every read at `t ≤ t0 + 3h` — including a
read at exactly `t0 + 3h`, since eviction requires `now > expiresAt` strictly
— and is absent for every read at `t > t0 + 3h`. -/
theorem whisper_ttl_boundary (s : Store) (i : Nat) (w : Whisper) (t0 t : ℚ)
    (hn : NodupKeys s) (hl : lookupWhisper s i = some w)
    (hc : w.created_at = t0) (he : w.expires_at = t0 + 10800) :
    (t ≤ t0 + 10800 → (get_whisper_by_id s i t).1 = some w)
    ∧ (t0 + 10800 < t → (get_whisper_by_id s i t).1 = none) := by
  constructor
  · intro ht
    have hlt : ¬ (w.expires_at < t) := by rw [he]; exact not_lt.mpr ht
    have h1 : lookupWhisper (cleanupExpiredWhispers t s) i = some w := by
      unfold cleanupExpiredWhispers
      rw [lookupWhisper_filter hn hl]
      simp [hlt]
    unfold get_whisper_by_id
    simp only [h1, if_neg hlt]
  · intro ht
    have hlt : w.expires_at < t := by rw [he]; exact ht
    have h1 : lookupWhisper (cleanupExpiredWhispers t s) i = none := by
      unfold cleanupExpiredWhispers
      rw [lookupWhisper_filter hn hl]
      simp [hlt]
    unfold get_whisper_by_id
    simp only [h1]

/-- Witness for C1 (amended), at a concrete store and a read inside the
window. -/
theorem whisper_ttl_boundary_witness :
    (get_whisper_by_id [(0, wC1)] 0 5000).1 = some wC1 :=
  (whisper_ttl_boundary [(0, wC1)] 0 wC1 0 5000 (by unfold NodupKeys; decide) (by decide) rfl
    (by norm_num [wC1])).1 (by norm_num)

/-- Counterexample for C1 as frozen: the claim says a read at exactly
`t0 + 3h` finds the whisper absent, but the code evicts only when
`now > expiresAt` strictly, so the boundary read still returns it. -/
theorem whisper_ttl_claim_counterexample :
    (get_whisper_by_id [(0, wC1)] 0 10800).1 = some wC1
      ∧ some wC1 ≠ (none : Option Whisper) := by
  constructor
  · decide
  · simp

/-- A boolean option whose `getD false` is true is literally `some true`. -/
theorem getD_false_eq_true {o : Option Bool} (h : o.getD false = true) : o = some true := by
  cases o with
  | none => simp at h
  | some b => simp at h; rw [h]

/-- The resolution block refuses creation exactly on a bot recipient or a
truthy self-resolution. -/
theorem resolveRecipient_fail_iff (env : Env) (sid : Int) (ru : List Char) :
    resolveRecipient env sid ru = .fail
      ↔ resolvesToBot env ru ∨ resolvesToSelfTruthy env sid ru := by
  unfold resolveRecipient resolvesToBot resolvesToSelfTruthy
  cases hdb : dbLookupVariants env ru with
  | error =>
    apply iff_of_false
    · simp
    · rintro ((⟨d, h, _⟩ | ⟨h, _, _⟩) | (⟨d, h, _, _, _⟩ | ⟨h, _, _⟩)) <;> simp at h
  | found d =>
    by_cases hbot : d.is_bot
    · apply iff_of_true
      · simp [hbot]
      · exact Or.inl (Or.inl ⟨d, rfl, hbot⟩)
    · by_cases hself : d.user_id ≠ 0 ∧ d.user_id = sid
      · apply iff_of_true
        · show (if d.is_bot = true then ResolveOutcome.fail
            else selfCheck sid (some d.user_id)) = ResolveOutcome.fail
          rw [if_neg hbot]
          show (if d.user_id ≠ 0 ∧ d.user_id = sid then ResolveOutcome.fail
            else ResolveOutcome.ok (some d.user_id)) = ResolveOutcome.fail
          rw [if_pos hself]
        · exact Or.inr (Or.inl ⟨d, rfl, by simpa using hbot, hself.2, hself.1⟩)
      · apply iff_of_false
        · simp [hbot, selfCheck, hself]
        · rintro ((⟨d', h, hb⟩ | ⟨h, _, _⟩) | (⟨d', h, _, hsid, h0⟩ | ⟨h, _, _⟩))
          · injection h with he; subst he; exact hbot hb
          · simp at h
          · injection h with he; subst he; exact hself ⟨h0, hsid⟩
          · simp at h
  | missing =>
    by_cases hba : env.botAvailable
    · rw [if_pos hba]
      cases hchat : env.getChat ru with
      | error =>
        apply iff_of_false
        · simp [selfCheck]
        · rintro ((⟨d, h, _⟩ | ⟨_, _, c, hch, _⟩) | (⟨d, h, _, _, _⟩ | ⟨_, _, c, hch, _, _, _⟩))
          · simp at h
          · simp at hch
          · simp at h
          · simp at hch
      | ok c =>
        by_cases hcb : c.is_bot_attr.getD false
        · apply iff_of_true
          · simp [hcb]
          · exact Or.inl (Or.inr ⟨rfl, hba, c, rfl, getD_false_eq_true hcb⟩)
        · by_cases hself : c.id ≠ 0 ∧ c.id = sid
          · apply iff_of_true
            · show (if c.is_bot_attr.getD false = true then ResolveOutcome.fail
                else selfCheck sid (some c.id)) = ResolveOutcome.fail
              rw [if_neg hcb]
              show (if c.id ≠ 0 ∧ c.id = sid then ResolveOutcome.fail
                else ResolveOutcome.ok (some c.id)) = ResolveOutcome.fail
              rw [if_pos hself]
            · exact Or.inr (Or.inr ⟨rfl, hba, c, rfl, by simpa using hcb,
                hself.2, hself.1⟩)
          · apply iff_of_false
            · simp [hcb, selfCheck, hself]
            · rintro ((⟨d, h, _⟩ | ⟨_, _, c', hch, hcb'⟩)
                | (⟨d, h, _, _, _⟩ | ⟨_, _, c', hch, _, hsid, h0⟩))
              · simp at h
              · injection hch with he; subst he
                rw [hcb'] at hcb; simp at hcb
              · simp at h
              · injection hch with he; subst he
                exact hself ⟨h0, hsid⟩
    · rw [if_neg hba]
      apply iff_of_false
      · simp [selfCheck]
      · rintro ((⟨d, h, _⟩ | ⟨_, hb, _⟩) | (⟨d, h, _, _, _⟩ | ⟨_, hb, _⟩))
        · simp at h
        · exact hba (by simp [hb])
        · simp at h
        · exact hba (by simp [hb])

/-- C2 (amended): `create_whisper` refuses creation exactly when the text
exceeds 1000 characters, or the recipient handle resolves to a bot account,
or it resolves to the sender's own identity with a truthy (nonzero) id — a
resolved id of `0` is falsy in Python, so the self-check `if recipient_id and
recipient_id == sender_id` is skipped for it. In particular length 1001
always fails, length 1000 succeeds when neither resolution condition holds,
and a failed or erroring recipient lookup does not fail creation: the whisper
is then stored with no recipient id. -/
theorem create_whisper_failure_characterization (env : Env) (sid : Int)
    (ru text : List Char) (now : ℚ) (fresh : Nat) (s : Store) :
    ((create_whisper env sid ru text now fresh s).1 = none
      ↔ text.length > 1000 ∨ resolvesToBot env ru ∨ resolvesToSelfTruthy env sid ru)
    ∧ (recipientLookupFailed env ru → text.length ≤ 1000 →
        create_whisper env sid ru text now fresh s
          = (some fresh, s ++ [(fresh,
              { sender_id := sid, recipient_id := none,
                recipient_username := lowerStr ru, message_text := text,
                created_at := now, expires_at := now + 10800 })])) := by
  constructor
  · rw [← resolveRecipient_fail_iff]
    unfold create_whisper
    by_cases hlen : text.length > 1000
    · simp [hlen]
    · rw [if_neg hlen]
      cases hr : resolveRecipient env sid ru with
      | fail => simp [hlen]
      | ok rid => simp [hlen]
  · intro hf hlen
    have hr : resolveRecipient env sid ru = .ok none := by
      unfold resolveRecipient
      rcases hf with h | ⟨h, h2⟩
      · rw [h]
      · rw [h]
        rcases h2 with h2 | h2
        · rw [if_neg (by simp [h2])]; rfl
        · by_cases hba : env.botAvailable
          · rw [if_pos hba, h2]; rfl
          · rw [if_neg hba]; rfl
    unfold create_whisper
    rw [if_neg (by omega), hr]

/-- Counterexample for C2 as frozen: with `sender_id = 0` and a directory
that resolves the handle to the sender's own identity `0`, the claim says
creation fails, but the code's truthiness test skips the self-check for a
falsy id and the whisper is created. -/
theorem create_whisper_self_zero_counterexample :
    dbLookupVariants envSelfZero ['b', 'o', 'b'] = .found { user_id := 0, is_bot := false }
    ∧ (create_whisper envSelfZero 0 ['b', 'o', 'b'] ['h', 'i'] 0 7 []).1 = some 7 := by
  constructor
  · rfl
  · rfl

/-- Witness for C2 (amended): an erroring directory lookup still creates the
whisper, storing it with no recipient id. -/
theorem create_whisper_failure_characterization_witness :
    create_whisper envDbError 5 ['B', 'o', 'b'] ['h', 'i'] 0 3 []
      = (some 3, [] ++ [(3,
          { sender_id := 5, recipient_id := none,
            recipient_username := lowerStr ['B', 'o', 'b'], message_text := ['h', 'i'],
            created_at := 0, expires_at := 0 + 10800 })]) :=
  (create_whisper_failure_characterization envDbError 5 ['B', 'o', 'b'] ['h', 'i'] 0 3 []).2
    (Or.inl rfl) (by decide)

/-- After an admitted call, the stamped entry survives the opportunistic
sweep: the user's timestamp is `now`. -/
theorem stamp_lookup (cd : Int → Option ℚ) (uid : Int) (now : ℚ) :
    cleanupOldCooldowns now (fun u => if u = uid then some now else cd u) uid = some now := by
  show (match (if uid = uid then some now else cd uid) with
    | some t => if now - t > 10 then none else some t
    | none => none) = some now
  rw [if_pos rfl]
  show (if now - now > 10 then none else some now) = some now
  rw [if_neg (by linarith)]

/-- C3 (amended): when the user's last admitted call is `e < 5` seconds old,
the gate denies with remaining seconds `int(5 - e) = ⌊5 - e⌋` — which lies in
`[0, 5]` (it is `0` for `e ∈ (4, 5)` and `5` only at `e = 0`), not the
ceiling in `[1, 5]` stated by the claim — and leaves the cooldown table
unchanged; on a first call, or once at least five seconds have elapsed, the
gate returns `(true, 0)` and stamps `now` as the user's new timestamp. -/
theorem cooldown_floor_spec (cd : Int → Option ℚ) (uid : Int) (now : ℚ) :
    (∀ last, cd uid = some last → 0 ≤ now - last → now - last < 5 →
      check_view_cooldown cd uid now = ((false, ⌊(5 : ℚ) - (now - last)⌋), cd)
        ∧ 0 ≤ ⌊(5 : ℚ) - (now - last)⌋ ∧ ⌊(5 : ℚ) - (now - last)⌋ ≤ 5)
    ∧ (∀ last, cd uid = some last → 5 ≤ now - last →
      (check_view_cooldown cd uid now).1 = (true, 0)
        ∧ (check_view_cooldown cd uid now).2 uid = some now)
    ∧ (cd uid = none →
      (check_view_cooldown cd uid now).1 = (true, 0)
        ∧ (check_view_cooldown cd uid now).2 uid = some now) := by
  refine ⟨?_, ?_, ?_⟩
  · intro last hl h0 h5
    have hnn : (0 : ℚ) ≤ 5 - (now - last) := by linarith
    have htr : pyIntTrunc (5 - (now - last)) = ⌊(5 : ℚ) - (now - last)⌋ := by
      unfold pyIntTrunc
      rw [if_pos hnn]
    refine ⟨?_, ?_, ?_⟩
    · unfold check_view_cooldown
      simp only [hl, if_pos h5, htr]
    · exact Int.floor_nonneg.mpr hnn
    · have h1 : (5 : ℚ) - (now - last) ≤ 5 := by linarith
      have h2 := Int.floor_le_floor h1
      simpa using h2
  · intro last hl h5
    have hnl : ¬ (now - last < 5) := not_lt.mpr h5
    constructor
    · unfold check_view_cooldown
      simp only [hl, if_neg hnl]
    · unfold check_view_cooldown
      simp only [hl, if_neg hnl]
      exact stamp_lookup cd uid now
  · intro hl
    constructor
    · unfold check_view_cooldown
      simp only [hl]
    · unfold check_view_cooldown
      simp only [hl]
      exact stamp_lookup cd uid now

/-- Witness for C3 (amended), at a concrete table: a denial 4.5 seconds in
returns `⌊1/2⌋`, and a fresh user is admitted and stamped. -/
theorem cooldown_floor_spec_witness :
    check_view_cooldown cdC3 1 (9 / 2) = ((false, ⌊(5 : ℚ) - (9 / 2 - 0)⌋), cdC3)
      ∧ (check_view_cooldown cdC3 2 100).1 = (true, 0)
      ∧ (check_view_cooldown cdC3 2 100).2 2 = some 100 :=
  ⟨((cooldown_floor_spec cdC3 1 (9 / 2)).1 0 rfl (by norm_num) (by norm_num)).1,
    ((cooldown_floor_spec cdC3 2 100).2.2 rfl).1,
    ((cooldown_floor_spec cdC3 2 100).2.2 rfl).2⟩

/-- Counterexample for C3 as frozen: with the last admitted call 4.5 seconds
old the claim demands the ceiling `⌈1/2⌉ = 1` of the remaining window, inside
`[1, 5]`; the code truncates `int(0.5)` and returns `0`. -/
theorem cooldown_ceiling_counterexample :
    (check_view_cooldown cdC3 1 (9 / 2)).1 = (false, 0)
      ∧ ⌈(5 : ℚ) - (9 / 2 - 0)⌉ = 1 ∧ ¬ ((1 : Int) ≤ 0) := by
  refine ⟨?_, ?_, by decide⟩
  · unfold check_view_cooldown cdC3 pyIntTrunc
    norm_num
  · rw [Int.ceil_eq_iff]
    norm_num

/-- C4: a whisper stored with an unresolved recipient is claimed by the first
requester whose lower-cased handle equals its stored handle: that requester
is authorized as recipient and backfilled into `recipient_id`; afterwards
every reveal attempt by a distinct identity other than the sender presenting
the same handle is denied (and leaves the whisper unchanged). -/
theorem lazy_binding_first_claimant (w : Whisper) (u1 u2 : Int) (h1 h2 : List Char)
    (hw : w.recipient_id = none) (hnz : w.recipient_username ≠ [])
    (hm1 : w.recipient_username = lowerStr h1) :
    (authorizeReveal w u1 (some h1)).1.1 = true
    ∧ (authorizeReveal w u1 (some h1)).2 = { w with recipient_id := some u1 }
    ∧ (u2 ≠ u1 → u2 ≠ w.sender_id → w.recipient_username = lowerStr h2 →
        (authorizeReveal { w with recipient_id := some u1 } u2 (some h2)).1 = (false, false)
        ∧ (authorizeReveal { w with recipient_id := some u1 } u2 (some h2)).2
            = { w with recipient_id := some u1 }) := by
  have hne1 : lowerStr h1 ≠ [] := by rw [← hm1]; exact hnz
  have hrc : recipientCheck w u1 (some h1) = (true, { w with recipient_id := some u1 }) := by
    unfold recipientCheck
    rw [if_neg (by rw [hw]; simp), if_pos ⟨hw, hnz⟩]
    show (if lowerStr h1 ≠ [] ∧ w.recipient_username = lowerStr h1 then
        (true, { w with recipient_id := some u1 })
      else (false, w)) = (true, { w with recipient_id := some u1 })
    rw [if_pos ⟨hne1, hm1⟩]
  refine ⟨?_, ?_, ?_⟩
  · unfold authorizeReveal
    rw [hrc]
  · unfold authorizeReveal
    rw [hrc]
  · intro hu1 hus _hm2
    have hrc2 : recipientCheck { w with recipient_id := some u1 } u2 (some h2)
        = (false, { w with recipient_id := some u1 }) := by
      unfold recipientCheck
      rw [if_neg (by simp; exact fun he => hu1 he.symm), if_neg (by simp)]
    constructor
    · unfold authorizeReveal
      rw [hrc2]
      have hs : decide (({ w with recipient_id := some u1 } : Whisper).sender_id = u2)
          = false := by
        simp
        exact fun he => hus he.symm
      rw [hs]
    · unfold authorizeReveal
      rw [hrc2]

/-- Witness for C4: requester `2` presenting handle `Bob` claims `wC4`; then
requester `3` presenting `bob` is denied. -/
theorem lazy_binding_first_claimant_witness :
    (authorizeReveal wC4 2 (some ['B', 'o', 'b'])).1.1 = true
    ∧ (authorizeReveal wC4 2 (some ['B', 'o', 'b'])).2 = { wC4 with recipient_id := some 2 }
    ∧ ((authorizeReveal { wC4 with recipient_id := some 2 } 3 (some ['b', 'o', 'b'])).1
        = (false, false)
      ∧ (authorizeReveal { wC4 with recipient_id := some 2 } 3 (some ['b', 'o', 'b'])).2
          = { wC4 with recipient_id := some 2 }) :=
  ⟨(lazy_binding_first_claimant wC4 2 3 ['B', 'o', 'b'] ['b', 'o', 'b'] rfl (by decide)
      (by decide)).1,
    (lazy_binding_first_claimant wC4 2 3 ['B', 'o', 'b'] ['b', 'o', 'b'] rfl (by decide)
      (by decide)).2.1,
    (lazy_binding_first_claimant wC4 2 3 ['B', 'o', 'b'] ['b', 'o', 'b'] rfl (by decide)
      (by decide)).2.2 (by decide) (by decide) (by decide)⟩

/-- C10: when the sender's own handle cannot be resolved — both directory
case-variants miss, and the platform lookup is unavailable or raises — a
whisper addressed to that very handle is created successfully (for text
within bounds) and stored with `recipient_id` absent; the sender can then be
lazily bound as its recipient by presenting the handle on reveal. -/
theorem self_whisper_lazy_binding (env : Env) (sender : Int) (h text : List Char)
    (now : ℚ) (fresh : Nat) (s : Store)
    (hdb1 : env.getUserByUsername h = .missing)
    (hdb2 : env.getUserByUsername (lowerStr h) = .missing)
    (hchat : env.botAvailable = false ∨ env.getChat h = .error)
    (hlen : text.length ≤ 1000) (hne : h ≠ []) :
    create_whisper env sender h text now fresh s
      = (some fresh, s ++ [(fresh,
          { sender_id := sender, recipient_id := none,
            recipient_username := lowerStr h, message_text := text,
            created_at := now, expires_at := now + 10800 })])
    ∧ (authorizeReveal
        { sender_id := sender, recipient_id := none,
          recipient_username := lowerStr h, message_text := text,
          created_at := now, expires_at := now + 10800 } sender (some h)).1.1 = true
    ∧ (authorizeReveal
        { sender_id := sender, recipient_id := none,
          recipient_username := lowerStr h, message_text := text,
          created_at := now, expires_at := now + 10800 } sender (some h)).2.recipient_id
        = some sender := by
  have hdbv : dbLookupVariants env h = .missing := by
    unfold dbLookupVariants
    rw [hdb1, hdb2]
  have hr : resolveRecipient env sender h = .ok none := by
    unfold resolveRecipient
    rw [hdbv]
    rcases hchat with hc | hc
    · rw [if_neg (by simp [hc])]
      rfl
    · by_cases hba : env.botAvailable
      · rw [if_pos hba, hc]
        rfl
      · rw [if_neg hba]
        rfl
  have hlne : lowerStr h ≠ [] := by
    intro he
    exact hne (List.map_eq_nil_iff.mp he)
  have hrc : recipientCheck
      { sender_id := sender, recipient_id := none,
        recipient_username := lowerStr h, message_text := text,
        created_at := now, expires_at := now + 10800 } sender (some h)
      = (true,
        { sender_id := sender, recipient_id := some sender,
          recipient_username := lowerStr h, message_text := text,
          created_at := now, expires_at := now + 10800 }) := by
    unfold recipientCheck
    rw [if_neg (by simp), if_pos ⟨rfl, hlne⟩]
    show (if lowerStr h ≠ [] ∧ lowerStr h = lowerStr h then _ else _)
        = ((true : Bool), _)
    rw [if_pos ⟨hlne, rfl⟩]
  refine ⟨?_, ?_, ?_⟩
  · unfold create_whisper
    rw [if_neg (by omega), hr]
  · unfold authorizeReveal
    rw [hrc]
  · unfold authorizeReveal
    rw [hrc]

/-- C8: the reveal path renders text of length at most 170 as an inline
ephemeral alert containing the text; longer text (for instance length 200)
is instead delivered in full to the chat of the reveal action when one is
available, else to a direct channel to the requester, with only a short
acknowledgment returned inline. -/
theorem presentReveal_length_threshold (t pA pF : List Char) (chatId : Option Int)
    (uid : Int) :
    (t.length ≤ 170 → presentReveal t pA pF chatId uid = .alert (pA ++ t))
    ∧ (t.length > 170 →
        (∀ c, chatId = some c → c ≠ 0 →
          presentReveal t pA pF chatId uid = .sendToChat c (pF ++ t))
        ∧ ((chatId = none ∨ chatId = some 0) →
          presentReveal t pA pF chatId uid = .sendToUser uid (pF ++ t))) := by
  constructor
  · intro hle
    unfold presentReveal
    rw [if_pos hle]
  · intro hgt
    have hnle : ¬ t.length ≤ 170 := by omega
    constructor
    · intro c hc h0
      unfold presentReveal
      simp only [if_neg hnle, hc, if_pos h0]
    · rintro (hc | hc)
      · unfold presentReveal
        simp only [if_neg hnle, hc]
      · unfold presentReveal
        simp only [if_neg hnle, hc]
        rw [if_neg (by simp)]

/-- Witness for C8: a 200-character text goes to the chat, a short one stays
inline. -/
theorem presentReveal_length_threshold_witness :
    presentReveal (List.replicate 200 'x') ['p'] ['q'] (some 9) 4
      = .sendToChat 9 (['q'] ++ List.replicate 200 'x')
    ∧ presentReveal ['h', 'i'] ['p'] ['q'] (some 9) 4 = .alert (['p'] ++ ['h', 'i']) :=
  ⟨((presentReveal_length_threshold (List.replicate 200 'x') ['p'] ['q'] (some 9) 4).2
      (by rw [List.length_replicate]; omega)).1 9 rfl (by decide),
    (presentReveal_length_threshold ['h', 'i'] ['p'] ['q'] (some 9) 4).1 (by decide)⟩

/-- C7: the inbox listing returns exactly the stored entries that are
unexpired (`now < expiresAt`) and either addressed to the user by id or —
only when a non-empty handle is supplied (Python's falsy empty string counts
as not supplied) — unresolved with a stored handle equal to the lower-cased
supplied handle; and the returned sequence is ordered by creation time, most
recent first. -/
theorem listFor_membership_sorted (s : Store) (uid : Int)
    (username : Option (List Char)) (now : ℚ) :
    (∀ e, e ∈ (get_whispers_for_user s uid username now).1
      ↔ e ∈ s ∧ now < e.2.expires_at
        ∧ (e.2.recipient_id = some uid
          ∨ (e.2.recipient_id = none ∧ ∃ h, username = some h ∧ h ≠ []
              ∧ e.2.recipient_username = lowerStr h)))
    ∧ (get_whispers_for_user s uid username now).1.Pairwise
        (fun a b => b.2.created_at ≤ a.2.created_at) := by
  constructor
  · intro e
    unfold get_whispers_for_user
    rw [List.Perm.mem_iff (List.mergeSort_perm _ _)]
    rw [List.mem_filter]
    unfold cleanupExpiredWhispers
    rw [List.mem_filter]
    constructor
    · rintro ⟨⟨hmem, hunexp⟩, hkeep⟩
      simp only [Bool.not_eq_true', decide_eq_false_iff_not, not_lt] at hunexp
      unfold keepForUser at hkeep
      by_cases hexp : e.2.expires_at ≤ now
      · rw [if_pos hexp] at hkeep
        simp at hkeep
      · rw [if_neg hexp] at hkeep
        push_neg at hexp
        refine ⟨hmem, hexp, ?_⟩
        by_cases hid : e.2.recipient_id = some uid
        · exact Or.inl hid
        · rw [if_neg hid] at hkeep
          cases husr : username with
          | none => rw [husr] at hkeep; simp [usernameLowerOf] at hkeep
          | some u =>
            rw [husr] at hkeep
            by_cases hu : u = []
            · rw [hu] at hkeep
              simp [usernameLowerOf] at hkeep
            · simp only [usernameLowerOf, if_neg hu] at hkeep
              rw [decide_eq_true_iff] at hkeep
              exact Or.inr ⟨hkeep.1, u, rfl, hu, hkeep.2.2⟩
    · rintro ⟨hmem, hunexp, hsel⟩
      have hexp : ¬ e.2.expires_at ≤ now := not_le.mpr hunexp
      refine ⟨⟨hmem, ?_⟩, ?_⟩
      · simp only [Bool.not_eq_true', decide_eq_false_iff_not, not_lt]
        exact le_of_lt hunexp
      · unfold keepForUser
        rw [if_neg hexp]
        rcases hsel with hid | ⟨hnone, u, husr, hu, hmatch⟩
        · rw [if_pos hid]
        · by_cases hid : e.2.recipient_id = some uid
          · rw [if_pos hid]
          · rw [if_neg hid, husr]
            simp only [usernameLowerOf, if_neg hu]
            rw [decide_eq_true_iff]
            refine ⟨hnone, ?_, hmatch⟩
            intro he
            exact hu (List.map_eq_nil_iff.mp he)
  · unfold get_whispers_for_user
    have hp := @List.sorted_mergeSort (Nat × Whisper)
      (fun a b => decide (b.2.created_at ≤ a.2.created_at))
      (fun a b c hab hbc => by
        rw [decide_eq_true_iff] at hab hbc ⊢
        exact le_trans hbc hab)
      (fun a b => by
        rcases le_total b.2.created_at a.2.created_at with h | h
        · simp [h]
        · simp [h])
      ((cleanupExpiredWhispers now s).filter
        (keepForUser uid (usernameLowerOf username) now))
    exact hp.imp (fun h => decide_eq_true_iff.mp h)

/-- The invariant only shrinks with the store. -/
theorem storeInv_of_subset {s t : Store} (hsub : ∀ e ∈ t, e ∈ s) (hs : StoreInv s) :
    StoreInv t :=
  fun e he => hs e (hsub e he)

/-- C9: every whisper in the store satisfies `expiresAt = createdAt + 3h`
and `len(text) ≤ 1000`, and the invariant is preserved by every operation —
creation, lookup with eviction, listing, the expiry sweep, and the
`recipient_id` backfill, which changes no other field of any entry. -/
theorem store_invariant_preserved (s : Store) (op : StoreOp) (hs : StoreInv s) :
    StoreInv (applyOp s op)
    ∧ (∀ i uid e, e ∈ backfillRecipient s i uid →
        ∃ e0, e0 ∈ s ∧ e.1 = e0.1 ∧ e.2.sender_id = e0.2.sender_id
          ∧ e.2.recipient_username = e0.2.recipient_username
          ∧ e.2.message_text = e0.2.message_text
          ∧ e.2.created_at = e0.2.created_at ∧ e.2.expires_at = e0.2.expires_at) := by
  have hback : ∀ i uid e, e ∈ backfillRecipient s i uid →
      ∃ e0, e0 ∈ s ∧ e.1 = e0.1 ∧ e.2.sender_id = e0.2.sender_id
        ∧ e.2.recipient_username = e0.2.recipient_username
        ∧ e.2.message_text = e0.2.message_text
        ∧ e.2.created_at = e0.2.created_at ∧ e.2.expires_at = e0.2.expires_at := by
    intro i uid e he
    unfold backfillRecipient at he
    rw [List.mem_map] at he
    obtain ⟨e0, he0, hfe⟩ := he
    refine ⟨e0, he0, ?_⟩
    by_cases hk : e0.1 = i
    · rw [if_pos hk] at hfe
      rw [← hfe]
      exact ⟨hk.symm ▸ rfl, rfl, rfl, rfl, rfl, rfl⟩
    · rw [if_neg hk] at hfe
      rw [← hfe]
      exact ⟨rfl, rfl, rfl, rfl, rfl, rfl⟩
  refine ⟨?_, hback⟩
  cases op with
  | createOp env sender ru text now fresh =>
    show StoreInv (create_whisper env sender ru text now fresh s).2
    unfold create_whisper
    by_cases hlen : text.length > 1000
    · rw [if_pos hlen]
      exact hs
    · rw [if_neg hlen]
      cases hr : resolveRecipient env sender ru with
      | fail => exact hs
      | ok rid =>
        intro e he
        rw [List.mem_append] at he
        rcases he with he | he
        · exact hs e he
        · rw [List.mem_singleton] at he
          rw [he]
          refine ⟨rfl, ?_⟩
          show text.length ≤ 1000
          omega
  | getOp i now =>
    show StoreInv (get_whisper_by_id s i now).2
    have hclean : StoreInv (cleanupExpiredWhispers now s) :=
      storeInv_of_subset (fun e he => List.mem_of_mem_filter he) hs
    unfold get_whisper_by_id
    cases hl : lookupWhisper (cleanupExpiredWhispers now s) i with
    | none =>
      simp only [hl]
      exact hclean
    | some w =>
      simp only [hl]
      by_cases hexp : w.expires_at < now
      · rw [if_pos hexp]
        exact storeInv_of_subset
          (fun e he => (List.eraseP_sublist _).subset he) hclean
      · rw [if_neg hexp]
        exact hclean
  | listOp uid username now =>
    show StoreInv (get_whispers_for_user s uid username now).2
    unfold get_whispers_for_user
    exact storeInv_of_subset (fun e he => List.mem_of_mem_filter he) hs
  | sweepOp now =>
    exact storeInv_of_subset (fun e he => List.mem_of_mem_filter he) hs
  | backfillOp i uid =>
    intro e he
    obtain ⟨e0, he0, _, _, _, htext, hcreated, hexpires⟩ := hback i uid e he
    rw [htext, hcreated, hexpires]
    exact hs e0 he0

/-- Witness for C9: the invariant holds after a sweep of a concrete store. -/
theorem store_invariant_preserved_witness :
    StoreInv (applyOp [(0, wC1)] (.sweepOp 0)) :=
  (store_invariant_preserved [(0, wC1)] (.sweepOp 0)
    (by
      intro e he
      rw [List.mem_singleton] at he
      subst he
      refine ⟨?_, by decide⟩
      show (10800 : ℚ) = 0 + 10800
      norm_num)).1

/-- Witness for C10: the self-addressed whisper is created unresolved and the
sender claims it on reveal. -/
theorem self_whisper_lazy_binding_witness :
    create_whisper envMissing 4 ['m', 'e'] ['h', 'i'] 0 11 []
      = (some 11, [] ++ [(11, wC10)])
    ∧ (authorizeReveal wC10 4 (some ['m', 'e'])).1.1 = true
    ∧ (authorizeReveal wC10 4 (some ['m', 'e'])).2.recipient_id = some 4 :=
  self_whisper_lazy_binding envMissing 4 ['m', 'e'] ['h', 'i'] 0 11 [] rfl rfl
    (Or.inl rfl) (by decide) (by decide)

end PixelWhisper
